import Mathlib

/-!
Shallow embedding of the CHIP-8 interpreter core (src/lib.rs) in Lean 4.

Conventions of the embedding:
* Machine integers (`u8`, `u16`, `usize`) become `Nat`; a reduction
  `% 256` or `% 65536` is inserted exactly where the Rust type forces a
  truncation or a wrapping operation (release-mode semantics of `+=` and
  of `as` casts).
* A Rust fixed-size array `[T; N]` becomes a total function `Nat → T`
  together with its static size `N`: indexed reads and writes inside the
  static bound behave as in the source, and `arr[i]` on an index `i ≥ N`
  is a Rust panic, modelled by the dedicated error constructor
  `Err.panicIndexOutOfRange` (distinct from every `Result::Err` the
  source produces, which get their own constructors).
* `Result<T, String>` becomes `Except Err T`, one `Err` constructor per
  distinct `format!` message of the source.
-/

set_option maxRecDepth 8000

namespace Chip8Spec

def RAM_SIZE : Nat := 4096

def DISPLAY_WIDTH : Nat := 64

def DISPLAY_HEIGHT : Nat := 32

def VARIABLE_REGISTER_SIZE : Nat := 16

def FLAG_REGISTER : Nat := 15

/-- The 16 five-byte font glyphs (`FONT` in the source). -/
def FONT : List Nat :=
  [0xF0, 0x90, 0x90, 0x90, 0xF0,
   0x20, 0x60, 0x20, 0x20, 0x70,
   0xF0, 0x10, 0xF0, 0x80, 0xF0,
   0xF0, 0x10, 0xF0, 0x10, 0xF0,
   0x90, 0x90, 0xF0, 0x10, 0x10,
   0xF0, 0x80, 0xF0, 0x10, 0xF0,
   0xF0, 0x80, 0xF0, 0x90, 0xF0,
   0xF0, 0x10, 0x20, 0x40, 0x40,
   0xF0, 0x90, 0xF0, 0x90, 0xF0,
   0xF0, 0x90, 0xF0, 0x10, 0xF0,
   0xF0, 0x90, 0xF0, 0x90, 0x90,
   0xE0, 0x90, 0xE0, 0x90, 0xE0,
   0xF0, 0x80, 0x80, 0x80, 0xF0,
   0xE0, 0x90, 0x90, 0x90, 0xE0,
   0xF0, 0x80, 0xF0, 0x80, 0xF0,
   0xF0, 0x80, 0xF0, 0x80, 0x80]

/-- Error values. One constructor per distinct `Err(format!(...))` site of
the source, plus `panicIndexOutOfRange` for Rust panics (out-of-bounds
array indexing / `copy_from_slice`), which are not `Result` errors. -/
inductive Err where
  | indexOutOfBounds (pos : Nat)
  | dataDoesNotFit (len pos : Nat)
  | displayOutOfBounds (x y : Nat)
  | stackIsEmpty
  | invalidRegister (r : Nat)
  | unknownInstruction (w : Nat)
  | panicIndexOutOfRange (idx : Nat)
  deriving DecidableEq

/-- The 4096-byte RAM (`inner: [u8; RAM_SIZE]`); cell values are `u8`,
so every read is reduced `% 256`. -/
structure Memory where
  inner : Nat → Nat

/-- `Memory::get_instruction`: big-endian 16-bit word from the bytes at
`pos` and `pos + 1`; `self.inner.get(pos)` is `None` exactly when the
index is at or past the array size. -/
def Memory.get_instruction (m : Memory) (pos : Nat) : Except Err Nat :=
  if pos < RAM_SIZE then
    let data := m.inner pos % 256
    let instruction := data <<< 8
    if pos + 1 < RAM_SIZE then
      .ok (instruction ||| (m.inner (pos + 1) % 256))
    else .error (.indexOutOfBounds (pos + 1))
  else .error (.indexOutOfBounds pos)

/-- The effect of `self.inner[pos..pos+len].copy_from_slice(&data)` on the
backing array (defined for any indices; `Memory.load` guards the bounds). -/
def writeBytes (f : Nat → Nat) (pos : Nat) (data : List Nat) : Nat → Nat :=
  match data with
  | [] => f
  | b :: rest => writeBytes (fun i => if i = pos then b else f i) (pos + 1) rest

/-- `Memory::load`. The capacity check is `u16` arithmetic:
`pos + data.len() as u16 > self.inner.len() as u16` — the cast truncates
`data.len()` mod 2^16 and the sum wraps mod 2^16 (release semantics).
When the check passes but the `usize` range `pos..pos+len` does not fit
the array, the slice indexing panics. -/
def Memory.load (m : Memory) (pos : Nat) (data : List Nat) : Except Err Memory :=
  if (pos + data.length % 65536) % 65536 > RAM_SIZE % 65536 then
    .error (.dataDoesNotFit data.length pos)
  else if pos + data.length ≤ RAM_SIZE then
    .ok ⟨writeBytes m.inner pos data⟩
  else
    .error (.panicIndexOutOfRange (pos + data.length))

/-- The 64×32 framebuffer (`inner: [bool; DISPLAY_WIDTH * DISPLAY_HEIGHT]`). -/
structure Display where
  inner : Nat → Bool

/-- `Display::draw`: XOR-toggle the pixel at linear index `x + y * 64`.
The source bounds check is `pos > DISPLAY_WIDTH * DISPLAY_HEIGHT`
(strict); an index that slips past it but is at or past the array size
(2048) panics on `self.inner[pos]`. -/
def Display.draw (d : Display) (x y : Nat) (flip : Bool) : Except Err (Display × Bool) :=
  let pos := x + y * DISPLAY_WIDTH
  if pos > DISPLAY_WIDTH * DISPLAY_HEIGHT then
    .error (.displayOutOfBounds x y)
  else if pos < DISPLAY_WIDTH * DISPLAY_HEIGHT then
    let old := d.inner pos
    let new := old != flip
    .ok (⟨fun p => if p = pos then new else d.inner p⟩, old == true && new == false)
  else
    .error (.panicIndexOutOfRange pos)

/-- `Display::clear`. -/
def Display.clear (_ : Display) : Display := ⟨fun _ => false⟩

/-- `get_bits`: the 8 bits of a byte, most significant first
(`bits[7 - i] = (byte >> i) & 1 == 1`). -/
def get_bits (byte : Nat) : List Bool :=
  [((byte >>> 7) &&& 1) == 1, ((byte >>> 6) &&& 1) == 1,
   ((byte >>> 5) &&& 1) == 1, ((byte >>> 4) &&& 1) == 1,
   ((byte >>> 3) &&& 1) == 1, ((byte >>> 2) &&& 1) == 1,
   ((byte >>> 1) &&& 1) == 1, ((byte >>> 0) &&& 1) == 1]

inductive Instruction where
  | ClearScreen
  | Jump (address : Nat)
  | Call (address : Nat)
  | Return
  | SkipEqVal (register : Nat) (value : Nat)
  | SkipNeVal (register : Nat) (value : Nat)
  | SkipEqReg (x_register : Nat) (y_register : Nat)
  | SkipNeReg (x_register : Nat) (y_register : Nat)
  | SetRegister (register : Nat) (value : Nat)
  | AddRegister (register : Nat) (value : Nat)
  | SetIndex (address : Nat)
  | Draw (x_register : Nat) (y_register : Nat) (count : Nat)
  deriving DecidableEq

/-- `impl TryFrom<u16> for Instruction`: the decoder. Each nibble is
computed as in the source (`as u8` truncation then `& 0b1111`); first
nibbles the source has no match arm for fall through to the
unknown-instruction error. -/
def Instruction.try_from (instruction : Nat) : Except Err Instruction :=
  let first := ((instruction >>> 12) % 256) &&& 15
  let second := ((instruction >>> 8) % 256) &&& 15
  let third := ((instruction >>> 4) % 256) &&& 15
  let fourth := (instruction % 256) &&& 15
  let number := (instruction % 256) &&& 255
  let address := instruction &&& 0xFFF
  if first == 0x0 then
    if second == 0x0 && third == 0xE && fourth == 0x0 then
      .ok .ClearScreen
    else if second == 0x0 && third == 0xE && fourth == 0xE then
      .ok .Return
    else .error (.unknownInstruction instruction)
  else if first == 0x1 then .ok (.Jump address)
  else if first == 0x2 then .ok (.Call address)
  else if first == 0x6 then
    if second > 0xF then .error (.invalidRegister second)
    else .ok (.SetRegister second number)
  else if first == 0x7 then .ok (.AddRegister second number)
  else if first == 0xA then .ok (.SetIndex address)
  else if first == 0xD then .ok (.Draw second third fourth)
  else .error (.unknownInstruction instruction)

/-- The interpreter state (`struct Chip8`); the `Stack`, `Timer` and
`InputBuffer` wrappers are inlined as plain fields, and the 16-entry
register array `[u8; VARIABLE_REGISTER_SIZE]` is a function. -/
structure Chip8 where
  memory : Memory
  display : Display
  input : List (Char × Bool)
  program_counter : Nat
  index_register : Nat
  stack : List Nat
  delay_timer : Nat
  sound_timer : Nat
  variable_registers : Nat → Nat
  ticks : Nat
  debug : Bool

/-- Read of `self.variable_registers[r]`. -/
def Chip8.V (s : Chip8) (r : Nat) : Nat := s.variable_registers r

/-- Write of `self.variable_registers[r] = v`. -/
def setReg (regs : Nat → Nat) (r v : Nat) : Nat → Nat :=
  fun i => if i = r then v else regs i

/-- `Chip8::new`: zeroed state with the font loaded at 0x050. -/
def Chip8.new (ticks : Nat) (debug : Bool) : Except Err Chip8 :=
  let chip : Chip8 :=
    { memory := ⟨fun _ => 0⟩
      display := ⟨fun _ => false⟩
      input := []
      program_counter := 0
      index_register := 0
      stack := []
      delay_timer := 0
      sound_timer := 0
      variable_registers := fun _ => 0
      ticks := ticks
      debug := debug }
  match chip.memory.load 0x050 FONT with
  | .ok m => .ok { chip with memory := m }
  | .error e => .error e

/-- `Chip8::on_input`: append the event to the input buffer. -/
def Chip8.on_input (s : Chip8) (input : Char) (down : Bool) : Chip8 :=
  { s with input := s.input ++ [(input, down)] }

/-- `Chip8::load_program`: copy the bytes at 0x200, then reset the PC. -/
def Chip8.load_program (s : Chip8) (data : List Nat) : Except Err Chip8 :=
  match s.memory.load 0x200 data with
  | .error e => .error e
  | .ok m => .ok { s with memory := m, program_counter := 0x200 }

/-- `Chip8::fetch`: read the word at PC, then `self.program_counter += 2`
(`u16` wrapping add). -/
def Chip8.fetch (s : Chip8) : Except Err (Nat × Chip8) :=
  match s.memory.get_instruction s.program_counter with
  | .error e => .error e
  | .ok instruction =>
    .ok (instruction, { s with program_counter := (s.program_counter + 2) % 65536 })

/-- Inner loop of the `Draw` arm: one sprite row. Walks the 8 bits at
column `x`, drawing each and recording collisions into register 15;
`x += 1; if x >= DISPLAY_WIDTH - 1 { break; }` after each pixel. Returns
the display, the registers and the final value of `x`. -/
def draw_row (disp : Display) (regs : Nat → Nat) (x y : Nat) (bits : List Bool) :
    Except Err (Display × (Nat → Nat) × Nat) :=
  match bits with
  | [] => .ok (disp, regs, x)
  | bit :: rest =>
    match disp.draw x y bit with
    | .error e => .error e
    | .ok (d2, turned_off) =>
      let regs2 := if turned_off then setReg regs FLAG_REGISTER 1 else regs
      let x2 := x + 1
      if x2 ≥ DISPLAY_WIDTH - 1 then .ok (d2, regs2, x2)
      else draw_row d2 regs2 x2 y rest

/-- Outer loop of the `Draw` arm: `for i in begin..end` over sprite rows,
reading `memory.inner[i]` (a panic when `i` is at or past the array
size), then `y += 1; if x >= DISPLAY_WIDTH - 1 && y >= DISPLAY_HEIGHT - 1
{ break; }`. `fuel` is the number of remaining iterations (`end - i`). -/
def draw_rows (mem : Memory) (disp : Display) (regs : Nat → Nat) (start_x i fuel y : Nat) :
    Except Err (Display × (Nat → Nat)) :=
  match fuel with
  | 0 => .ok (disp, regs)
  | fuel2 + 1 =>
    if i < RAM_SIZE then
      let sprite_row := mem.inner i % 256
      let bits := get_bits sprite_row
      match draw_row disp regs start_x y bits with
      | .error e => .error e
      | .ok (d2, regs2, x2) =>
        let y2 := y + 1
        if x2 ≥ DISPLAY_WIDTH - 1 && y2 ≥ DISPLAY_HEIGHT - 1 then .ok (d2, regs2)
        else draw_rows mem d2 regs2 start_x (i + 1) fuel2 y2
    else .error (.panicIndexOutOfRange i)

/-- Body of the `Draw` arm after the origin computation: clear the flag
register, compute `begin = I` and `end = (I + count) as u16` (`u16`
wrapping add), and run the row loop. -/
def Chip8.draw_body (s : Chip8) (start_x start_y count : Nat) : Except Err Chip8 :=
  let regs0 := setReg s.variable_registers FLAG_REGISTER 0
  let is := s.index_register
  let ie := (s.index_register + count) % 65536
  match draw_rows s.memory s.display regs0 start_x is (ie - is) start_y with
  | .error e => .error e
  | .ok (d2, regs2) => .ok { s with display := d2, variable_registers := regs2 }

/-- `Chip8::execute`. -/
def Chip8.execute (s : Chip8) (instruction : Instruction) : Except Err Chip8 :=
  match instruction with
  | .ClearScreen => .ok { s with display := s.display.clear }
  | .Jump address => .ok { s with program_counter := address }
  | .Call address =>
    .ok { s with stack := s.program_counter :: s.stack, program_counter := address }
  | .Return =>
    match s.stack with
    | [] => .error .stackIsEmpty
    | address :: rest => .ok { s with program_counter := address, stack := rest }
  | .SkipEqVal register value =>
    if s.V register == value then
      .ok { s with program_counter := (s.program_counter + 2) % 65536 }
    else .ok s
  | .SkipNeVal register value =>
    if s.V register != value then
      .ok { s with program_counter := (s.program_counter + 2) % 65536 }
    else .ok s
  | .SkipEqReg xr yr =>
    if s.V xr == s.V yr then
      .ok { s with program_counter := (s.program_counter + 2) % 65536 }
    else .ok s
  | .SkipNeReg xr yr =>
    if s.V xr != s.V yr then
      .ok { s with program_counter := (s.program_counter + 2) % 65536 }
    else .ok s
  | .SetRegister register value =>
    .ok { s with variable_registers := setReg s.variable_registers register value }
  | .AddRegister register value =>
    .ok { s with variable_registers :=
            setReg s.variable_registers register ((s.V register + value) % 256) }
  | .SetIndex address => .ok { s with index_register := address }
  | .Draw xr yr count =>
    s.draw_body ((s.V xr) &&& (DISPLAY_WIDTH - 1)) ((s.V yr) &&& (DISPLAY_HEIGHT - 1)) count

/-- One fetch-decode-execute cycle (one iteration of `Chip8::update`). -/
def Chip8.tick (s : Chip8) : Except Err Chip8 :=
  match s.fetch with
  | .error e => .error e
  | .ok (encoded, s2) =>
    match Instruction.try_from encoded with
    | .error e => .error e
    | .ok instruction => s2.execute instruction

/-- The loop of `Chip8::update`, running `n` ticks. -/
def update_ticks (n : Nat) (s : Chip8) : Except Err Chip8 :=
  match n with
  | 0 => .ok s
  | m + 1 =>
    match s.tick with
    | .error e => .error e
    | .ok s2 => update_ticks m s2

/-- `Chip8::update`: run `self.ticks` fetch-decode-execute cycles. -/
def Chip8.update (s : Chip8) : Except Err Chip8 := update_ticks s.ticks s

/-! ### Concrete fixtures for counterexamples and witnesses -/

/-- A zeroed interpreter state (memory all zero, display clear, PC at
0x200, index register at 0x300). -/
def st0 : Chip8 :=
  { memory := ⟨fun _ => 0⟩
    display := ⟨fun _ => false⟩
    input := []
    program_counter := 0x200
    index_register := 0x300
    stack := []
    delay_timer := 0
    sound_timer := 0
    variable_registers := fun _ => 0
    ticks := 1
    debug := false }

/-- Fixture for the sprite-origin question: `V1 = 32`, one sprite byte
`0x80` at address 0x300. -/
def cexOrigin : Chip8 :=
  { st0 with
    memory := ⟨writeBytes (fun _ => 0) 0x300 [0x80]⟩
    variable_registers := setReg (fun _ => 0) 1 32 }

/-- Fixture for the right-edge question: `V0 = 56`, one sprite byte
`0xFF` at address 0x300 (columns 56..63 all fit on the display). -/
def cexRightEdge : Chip8 :=
  { st0 with
    memory := ⟨writeBytes (fun _ => 0) 0x300 [0xFF]⟩
    variable_registers := setReg (fun _ => 0) 0 56 }

/-- Fixture for the bottom-edge question: `V1 = 31`, two sprite bytes at
address 0x300 (the second row would land on row 32). -/
def cexBottomEdge : Chip8 :=
  { st0 with
    memory := ⟨writeBytes (fun _ => 0) 0x300 [0xFF, 0xFF]⟩
    variable_registers := setReg (fun _ => 0) 1 31 }

/-- Fixture with `V3 = 250`. -/
def cexAdd : Chip8 :=
  { st0 with variable_registers := setReg (fun _ => 0) 3 250 }

/-! ### Helper lemmas -/

theorem load_program_error (s : Chip8) (data : List Nat) (e : Err)
    (h : s.memory.load 0x200 data = .error e) : s.load_program data = .error e := by
  unfold Chip8.load_program
  rw [h]

theorem writeBytes_lt (data : List Nat) (f : Nat → Nat) (pos i : Nat) (h : i < pos) :
    writeBytes f pos data i = f i := by
  induction data generalizing f pos with
  | nil => rfl
  | cons b rest ih =>
    show writeBytes (fun j => if j = pos then b else f j) (pos + 1) rest i = f i
    rw [ih _ (pos + 1) (by omega)]
    exact if_neg (by omega)

theorem writeBytes_ge (data : List Nat) (f : Nat → Nat) (pos i : Nat)
    (h : pos + data.length ≤ i) : writeBytes f pos data i = f i := by
  induction data generalizing f pos with
  | nil => rfl
  | cons b rest ih =>
    have hlen : (b :: rest).length = rest.length + 1 := rfl
    show writeBytes (fun j => if j = pos then b else f j) (pos + 1) rest i = f i
    rw [ih _ (pos + 1) (by rw [hlen] at h; omega)]
    exact if_neg (by rw [hlen] at h; omega)

theorem except_map_map {ε α β γ : Type} (r : Except ε α) (f : α → β) (g : β → γ) :
    (r.map f).map g = r.map (fun x => g (f x)) := by
  cases r <;> rfl

/-! ### Claim theorems -/

/-- C1: the spec says the decoder maps 3xkk / 4xkk / 5xy0 / 9xy0 to the
four skip instructions; the decoder in the source has no arm for first
nibbles 3, 4, 5 or 9 and classifies every such word as unknown (the
`Instruction` variants and their `execute` arms exist but are
unreachable), so decoding fails at each of these words. -/
theorem C1_decoder_rejects_skip_opcodes :
    Instruction.try_from 0x3A05 = .error (.unknownInstruction 0x3A05) ∧
    Instruction.try_from 0x4A05 = .error (.unknownInstruction 0x4A05) ∧
    Instruction.try_from 0x5AB0 = .error (.unknownInstruction 0x5AB0) ∧
    Instruction.try_from 0x9AB0 = .error (.unknownInstruction 0x9AB0) :=
  ⟨rfl, rfl, rfl, rfl⟩

/-- C2 (counterexample): with `V1 = 32`, executing `Draw V0 V1 1` is not
the draw whose origin row is `V1 mod 64 = 32`: the executed draw masks
the row with `DISPLAY_HEIGHT - 1 = 31` and lands on row 0 (it succeeds,
while drawing from origin row 32 fails out of bounds). -/
theorem C2_counterexample :
    cexOrigin.execute (.Draw 0 1 1)
      ≠ cexOrigin.draw_body (cexOrigin.V 0 % 64) (cexOrigin.V 1 % 64) 1 := by
  intro h
  have h2 : (cexOrigin.execute (.Draw 0 1 1)).isOk
      = (cexOrigin.draw_body (cexOrigin.V 0 % 64) (cexOrigin.V 1 % 64) 1).isOk :=
    congrArg Except.isOk h
  have h3 : (true : Bool) = false := h2
  cases h3

/-- C2 (amended): executing `Draw Vx Vy n` computes the sprite origin as
`start_x := Vx mod 64` and `start_y := Vy mod 32`, before the flag
register is cleared and any rows are drawn (`draw_body` is exactly the
flag-clear followed by the row loop). -/
theorem C2_draw_origin :
    ∀ (s : Chip8) (xr yr n : Nat),
      s.execute (.Draw xr yr n) = s.draw_body (s.V xr % 64) (s.V yr % 32) n := by
  intro s xr yr n
  show s.draw_body ((s.V xr) &&& (DISPLAY_WIDTH - 1)) ((s.V yr) &&& (DISPLAY_HEIGHT - 1)) n
      = s.draw_body (s.V xr % 64) (s.V yr % 32) n
  have h64 : (s.V xr) &&& (DISPLAY_WIDTH - 1) = s.V xr % 64 := by
    have h : DISPLAY_WIDTH - 1 = 2 ^ 6 - 1 := by decide
    rw [h, Nat.and_pow_two_sub_one_eq_mod]
  have h32 : (s.V yr) &&& (DISPLAY_HEIGHT - 1) = s.V yr % 32 := by
    have h : DISPLAY_HEIGHT - 1 = 2 ^ 5 - 1 := by decide
    rw [h, Nat.and_pow_two_sub_one_eq_mod]
  rw [h64, h32]

/-- C3: the claim says a clipped row still draws every column that fits,
including column 63, and that a sprite stops before row 32 so the draw
never goes out of bounds. The code breaks the inner loop once `x ≥ 63`,
so with `V0 = 56` and sprite byte 0xFF only columns 56..62 are set and
column 63 stays clear; and the outer loop only stops when the row was
also clipped on the right, so with `V1 = 31` and a 2-row sprite the
second row is drawn at `y = 32` and the pixel write at linear index 2048
indexes out of the 2048-entry framebuffer (a panic, not a clean stop). -/
theorem C3_draw_edge_bug :
    ((cexRightEdge.execute (.Draw 0 1 1)).map
        (fun s => (s.display.inner 62, s.display.inner 63))
      = .ok (true, false)) ∧
    cexBottomEdge.execute (.Draw 0 1 2) = .error (.panicIndexOutOfRange 2048) :=
  ⟨rfl, rfl⟩

/-- C4: `AddRegister x kk` sets `Vx := (Vx + kk) mod 256` (8-bit
wraparound) for every starting value, and leaves the flag register `V15`
unmodified whenever `x ≠ 15`. -/
theorem C4_add_register_wraps (s : Chip8) (x kk : Nat) (hx : x ≠ FLAG_REGISTER) :
    ∃ s2, s.execute (.AddRegister x kk) = .ok s2 ∧
      s2.V x = (s.V x + kk) % 256 ∧
      s2.V FLAG_REGISTER = s.V FLAG_REGISTER := by
  refine ⟨_, rfl, ?_, ?_⟩
  · show setReg s.variable_registers x ((s.V x + kk) % 256) x = (s.V x + kk) % 256
    simp [setReg]
  · show setReg s.variable_registers x ((s.V x + kk) % 256) FLAG_REGISTER
        = s.variable_registers FLAG_REGISTER
    unfold setReg
    rw [if_neg (fun h => hx h.symm)]

/-- C4 witness: `V3 = 250` plus `10` wraps to `4` and the flag register
stays `0`. -/
theorem C4_add_register_wraps_witness :
    ∃ s2, cexAdd.execute (.AddRegister 3 10) = .ok s2 ∧
      s2.V 3 = (cexAdd.V 3 + 10) % 256 ∧
      s2.V FLAG_REGISTER = cexAdd.V FLAG_REGISTER :=
  C4_add_register_wraps cexAdd 3 10 (by decide)

/-- C5: the claim says every coordinate pair whose linear index is outside
the 2048-pixel framebuffer gets the out-of-bounds error. The source bounds
check is strict (`pos > 2048`), so the out-of-range index 2048 — pair
(0, 32) — slips past it and the pixel array is indexed out of bounds (a
panic), not the tagged error. -/
theorem C5_display_draw_off_by_one :
    (⟨fun _ => false⟩ : Display).draw 0 32 true = .error (.panicIndexOutOfRange 2048) ∧
    DISPLAY_WIDTH * DISPLAY_HEIGHT ≤ 0 + 32 * DISPLAY_WIDTH :=
  ⟨rfl, by decide⟩

/-- C7: the capacity check of `Memory::load` is `u16` arithmetic, so for
a 65024-byte program the sum `0x200 + 65024` wraps to 0, the check
passes, and the copy indexes out of bounds (a panic) instead of failing
with the capacity error — although 65024 bytes plainly do not fit in the
3584 bytes between 0x200 and the end of memory. The boundary case the
spec names does hold: 3585 bytes fail with the capacity error. -/
theorem C7_load_capacity_overflow :
    st0.load_program (List.replicate 65024 7) = .error (.panicIndexOutOfRange 65536) ∧
    st0.load_program (List.replicate 3585 7) = .error (.dataDoesNotFit 3585 0x200) ∧
    RAM_SIZE - 0x200 < 65024 := by
  refine ⟨?_, ?_, by decide⟩
  · refine load_program_error st0 _ _ ?_
    unfold Memory.load
    rw [List.length_replicate]
    rw [if_neg (by decide), if_neg (by decide)]
  · refine load_program_error st0 _ _ ?_
    unfold Memory.load
    rw [List.length_replicate]
    rw [if_pos (by decide)]

/-- C8: a successful program load sets PC to 0x200, writes only the
memory region starting at 0x200 (everything below 0x200 — the font —
and everything at or past 0x200 + length is unchanged), and leaves the
registers, index register, stack, display, timers and input untouched. -/
theorem C8_load_program_frame (s : Chip8) (data : List Nat) (s2 : Chip8)
    (h : s.load_program data = .ok s2) :
    s2.program_counter = 0x200 ∧
    (∀ i, i < 0x200 → s2.memory.inner i = s.memory.inner i) ∧
    (∀ i, 0x200 + data.length ≤ i → s2.memory.inner i = s.memory.inner i) ∧
    s2.variable_registers = s.variable_registers ∧
    s2.index_register = s.index_register ∧
    s2.stack = s.stack ∧
    s2.display = s.display ∧
    s2.delay_timer = s.delay_timer ∧
    s2.sound_timer = s.sound_timer ∧
    s2.input = s.input := by
  unfold Chip8.load_program Memory.load at h
  by_cases h1 : (0x200 + data.length % 65536) % 65536 > RAM_SIZE % 65536
  · rw [if_pos h1] at h
    exact Except.noConfusion h
  · rw [if_neg h1] at h
    by_cases h2 : 0x200 + data.length ≤ RAM_SIZE
    · rw [if_pos h2] at h
      have h3 : Except.ok (ε := Err)
          ({ s with memory := ⟨writeBytes s.memory.inner 0x200 data⟩,
                    program_counter := 0x200 }) = .ok s2 := h
      obtain rfl := (Except.ok.inj h3).symm
      refine ⟨rfl, ?_, ?_, rfl, rfl, rfl, rfl, rfl, rfl, rfl⟩
      · intro i hi
        exact writeBytes_lt data s.memory.inner 0x200 i hi
      · intro i hi
        exact writeBytes_ge data s.memory.inner 0x200 i hi
    · rw [if_neg h2] at h
      exact Except.noConfusion h

/-- C8 witness: loading the two-byte program `[1, 2]` into the zeroed
state succeeds and the frame conditions hold. -/
theorem C8_load_program_frame_witness :
    ({ st0 with memory := ⟨writeBytes st0.memory.inner 0x200 [1, 2]⟩,
                program_counter := 0x200 } : Chip8).program_counter = 0x200 ∧
    (∀ i, i < 0x200 →
      ({ st0 with memory := ⟨writeBytes st0.memory.inner 0x200 [1, 2]⟩,
                  program_counter := 0x200 } : Chip8).memory.inner i = st0.memory.inner i) ∧
    (∀ i, 0x200 + ([1, 2] : List Nat).length ≤ i →
      ({ st0 with memory := ⟨writeBytes st0.memory.inner 0x200 [1, 2]⟩,
                  program_counter := 0x200 } : Chip8).memory.inner i = st0.memory.inner i) ∧
    ({ st0 with memory := ⟨writeBytes st0.memory.inner 0x200 [1, 2]⟩,
                program_counter := 0x200 } : Chip8).variable_registers = st0.variable_registers ∧
    ({ st0 with memory := ⟨writeBytes st0.memory.inner 0x200 [1, 2]⟩,
                program_counter := 0x200 } : Chip8).index_register = st0.index_register ∧
    ({ st0 with memory := ⟨writeBytes st0.memory.inner 0x200 [1, 2]⟩,
                program_counter := 0x200 } : Chip8).stack = st0.stack ∧
    ({ st0 with memory := ⟨writeBytes st0.memory.inner 0x200 [1, 2]⟩,
                program_counter := 0x200 } : Chip8).display = st0.display ∧
    ({ st0 with memory := ⟨writeBytes st0.memory.inner 0x200 [1, 2]⟩,
                program_counter := 0x200 } : Chip8).delay_timer = st0.delay_timer ∧
    ({ st0 with memory := ⟨writeBytes st0.memory.inner 0x200 [1, 2]⟩,
                program_counter := 0x200 } : Chip8).sound_timer = st0.sound_timer ∧
    ({ st0 with memory := ⟨writeBytes st0.memory.inner 0x200 [1, 2]⟩,
                program_counter := 0x200 } : Chip8).input = st0.input :=
  C8_load_program_frame st0 [1, 2] _ rfl

/-- Fixture for Call/Return: the word 0x2300 (`Call 0x300`) at 0x200. -/
def cexCall : Chip8 :=
  { st0 with memory := ⟨writeBytes (fun _ => 0) 0x200 [0x23, 0x00]⟩ }

/-- C9: a tick that fetches and executes `Call a` pushes the
already-advanced PC (original PC + 2, the address right after the 2-byte
Call) and jumps to `a`; executing `Return` from any state whose stack
starts with that saved address restores PC to original PC + 2; and
`Return` with an empty stack fails with the stack-underflow error. -/
theorem C9_call_then_return (s : Chip8) (w a : Nat)
    (hw : s.memory.get_instruction s.program_counter = .ok w)
    (hd : Instruction.try_from w = .ok (.Call a)) :
    ∃ s2, s.tick = .ok s2 ∧ s2.program_counter = a ∧
      s2.stack = (s.program_counter + 2) :: s.stack ∧
      (∀ t : Chip8, t.stack = (s.program_counter + 2) :: s.stack →
        ∃ t2, t.execute .Return = .ok t2 ∧
          t2.program_counter = s.program_counter + 2 ∧ t2.stack = s.stack) ∧
      (∀ t : Chip8, t.stack = [] → t.execute .Return = .error .stackIsEmpty) := by
  have hlt : s.program_counter + 1 < RAM_SIZE := by
    by_contra hn
    unfold Memory.get_instruction at hw
    by_cases h1 : s.program_counter < RAM_SIZE
    · rw [if_pos h1, if_neg hn] at hw
      exact Except.noConfusion hw
    · rw [if_neg h1] at hw
      exact Except.noConfusion hw
  have hmod : (s.program_counter + 2) % 65536 = s.program_counter + 2 := by
    have : RAM_SIZE = 4096 := rfl
    omega
  have htick : s.tick = .ok { s with
      program_counter := a
      stack := ((s.program_counter + 2) % 65536) :: s.stack } := by
    unfold Chip8.tick Chip8.fetch
    rw [hw]
    dsimp only
    rw [hd]
    rfl
  refine ⟨_, htick, rfl, by rw [hmod], ?_, ?_⟩
  · intro t ht
    have hret : t.execute .Return = .ok { t with
        program_counter := s.program_counter + 2
        stack := s.stack } := by
      unfold Chip8.execute
      rw [ht]
    exact ⟨_, hret, rfl, rfl⟩
  · intro t ht
    unfold Chip8.execute
    rw [ht]

/-- C9 witness: with `Call 0x300` encoded at PC = 0x200, the tick pushes
0x202 and jumps to 0x300, Return pops back to 0x202, and Return on an
empty stack fails. -/
theorem C9_call_then_return_witness :
    ∃ s2, cexCall.tick = .ok s2 ∧ s2.program_counter = 0x300 ∧
      s2.stack = (cexCall.program_counter + 2) :: cexCall.stack ∧
      (∀ t : Chip8, t.stack = (cexCall.program_counter + 2) :: cexCall.stack →
        ∃ t2, t.execute .Return = .ok t2 ∧
          t2.program_counter = cexCall.program_counter + 2 ∧ t2.stack = cexCall.stack) ∧
      (∀ t : Chip8, t.stack = [] → t.execute .Return = .error .stackIsEmpty) :=
  C9_call_then_return cexCall 0x2300 0x300 rfl rfl

/-! ### Input noninterference (C10) -/

/-- A sequence of input-event submissions (`Chip8::on_input` calls). -/
def submit_all (s : Chip8) (evs : List (Char × Bool)) : Chip8 :=
  evs.foldl (fun t p => t.on_input p.1 p.2) s

/-- Everything of the state except the input buffer. -/
def Chip8.strip (s : Chip8) : Chip8 := { s with input := [] }

theorem draw_body_input (mem : Memory) (disp : Display) (inp i : List (Char × Bool))
    (pc idx : Nat) (stk : List Nat) (dt sdt : Nat) (regs : Nat → Nat) (tk : Nat) (dbg : Bool)
    (sx sy n : Nat) :
    Chip8.draw_body ⟨mem, disp, i, pc, idx, stk, dt, sdt, regs, tk, dbg⟩ sx sy n
      = (Chip8.draw_body ⟨mem, disp, inp, pc, idx, stk, dt, sdt, regs, tk, dbg⟩ sx sy n).map
          (fun t => { t with input := i }) := by
  unfold Chip8.draw_body
  dsimp only
  cases draw_rows mem disp (setReg regs FLAG_REGISTER 0) sx idx ((idx + n) % 65536 - idx) sy with
  | error e => rfl
  | ok p => cases p with
    | mk d2 regs2 => rfl

theorem execute_input (s : Chip8) (i : List (Char × Bool)) (instr : Instruction) :
    Chip8.execute { s with input := i } instr
      = (Chip8.execute s instr).map (fun t => { t with input := i }) := by
  obtain ⟨mem, disp, inp, pc, idx, stk, dt, sdt, regs, tk, dbg⟩ := s
  cases instr with
  | ClearScreen => rfl
  | Jump a => rfl
  | Call a => rfl
  | Return => cases stk with
    | nil => rfl
    | cons a rest => rfl
  | SkipEqVal r v =>
    dsimp only [Chip8.execute, Chip8.V]
    by_cases hc : (regs r == v) = true
    · rw [if_pos hc, if_pos hc]
      rfl
    · rw [if_neg hc, if_neg hc]
      rfl
  | SkipNeVal r v =>
    dsimp only [Chip8.execute, Chip8.V]
    by_cases hc : (regs r != v) = true
    · rw [if_pos hc, if_pos hc]
      rfl
    · rw [if_neg hc, if_neg hc]
      rfl
  | SkipEqReg xr yr =>
    dsimp only [Chip8.execute, Chip8.V]
    by_cases hc : (regs xr == regs yr) = true
    · rw [if_pos hc, if_pos hc]
      rfl
    · rw [if_neg hc, if_neg hc]
      rfl
  | SkipNeReg xr yr =>
    dsimp only [Chip8.execute, Chip8.V]
    by_cases hc : (regs xr != regs yr) = true
    · rw [if_pos hc, if_pos hc]
      rfl
    · rw [if_neg hc, if_neg hc]
      rfl
  | SetRegister r v => rfl
  | AddRegister r v => rfl
  | SetIndex a => rfl
  | Draw xr yr n =>
    dsimp only [Chip8.execute, Chip8.V]
    exact draw_body_input mem disp inp i pc idx stk dt sdt regs tk dbg _ _ n

theorem tick_input (s : Chip8) (i : List (Char × Bool)) :
    Chip8.tick { s with input := i } = (Chip8.tick s).map (fun t => { t with input := i }) := by
  unfold Chip8.tick Chip8.fetch
  dsimp only
  cases hw : s.memory.get_instruction s.program_counter with
  | error e => rfl
  | ok w =>
    dsimp only
    cases hd : Instruction.try_from w with
    | error e => rfl
    | ok instr =>
      exact execute_input
        { s with program_counter := (s.program_counter + 2) % 65536 } i instr

theorem update_ticks_input (n : Nat) (s : Chip8) (i : List (Char × Bool)) :
    update_ticks n { s with input := i }
      = (update_ticks n s).map (fun t => { t with input := i }) := by
  induction n generalizing s with
  | zero => rfl
  | succ m ih =>
    unfold update_ticks
    rw [tick_input]
    cases Chip8.tick s with
    | error e => rfl
    | ok s2 => exact ih s2

theorem submit_all_eq (s : Chip8) (evs : List (Char × Bool)) :
    submit_all s evs = { s with input := s.input ++ evs } := by
  induction evs generalizing s with
  | nil => simp [submit_all]
  | cons p rest ih =>
    show submit_all (s.on_input p.1 p.2) rest = _
    rw [ih]
    simp [Chip8.on_input]

/-! ### Draw as a pure event list (C6)

The control path of the sprite loop — which pixels are visited, in which
order, and whether the loop aborts — depends only on the memory, the
origin, the index range and the row coordinate, never on the display
contents or the registers. The following pure functions compute that
path, and the simulation lemmas below show a successful `draw_row` /
`draw_rows` equals folding the XOR-toggle over the event list. -/

/-- The (column, row, bit) pixel events of one sprite row, together with
the final value of `x`, mirroring the control of `draw_row`. -/
def row_events (x y : Nat) (bits : List Bool) : List (Nat × Nat × Bool) × Nat :=
  match bits with
  | [] => ([], x)
  | bit :: rest =>
    if x + 1 ≥ DISPLAY_WIDTH - 1 then ([(x, y, bit)], x + 1)
    else
      let p := row_events (x + 1) y rest
      ((x, y, bit) :: p.1, p.2)

/-- The pixel events of the whole sprite, mirroring the control of
`draw_rows` (on the paths where it does not fail). -/
def rows_events (mem : Memory) (start_x i fuel y : Nat) : List (Nat × Nat × Bool) :=
  match fuel with
  | 0 => []
  | fuel2 + 1 =>
    if i < RAM_SIZE then
      let r := row_events start_x y (get_bits (mem.inner i % 256))
      if r.2 ≥ DISPLAY_WIDTH - 1 && y + 1 ≥ DISPLAY_HEIGHT - 1 then r.1
      else r.1 ++ rows_events mem start_x (i + 1) fuel2 (y + 1)
    else []

/-- Folding the XOR-toggle (and the collision flag write) of a list of
pixel events over a display and a register file. -/
def apply_events (disp : Display) (regs : Nat → Nat) (evs : List (Nat × Nat × Bool)) :
    Display × (Nat → Nat) :=
  match evs with
  | [] => (disp, regs)
  | (x, y, bit) :: rest =>
    let pos := x + y * DISPLAY_WIDTH
    let old := disp.inner pos
    let new := old != bit
    let regs2 := if old == true && new == false then setReg regs FLAG_REGISTER 1 else regs
    apply_events ⟨fun p => if p = pos then new else disp.inner p⟩ regs2 rest

/-- A successful sprite row is the event fold, and its success carries
over to any other display and register file (the bounds checks depend
only on the coordinates). -/
theorem draw_row_sim (bits : List Bool) :
    ∀ (disp1 disp2 : Display) (regs1 regs2 : Nat → Nat) (x y : Nat)
      (r1 : Display × (Nat → Nat) × Nat),
      draw_row disp1 regs1 x y bits = .ok r1 →
      r1 = ((apply_events disp1 regs1 (row_events x y bits).1).1,
            (apply_events disp1 regs1 (row_events x y bits).1).2,
            (row_events x y bits).2) ∧
      draw_row disp2 regs2 x y bits
        = .ok ((apply_events disp2 regs2 (row_events x y bits).1).1,
               (apply_events disp2 regs2 (row_events x y bits).1).2,
               (row_events x y bits).2) := by
  induction bits with
  | nil =>
    intro disp1 disp2 regs1 regs2 x y r1 h1
    have h2 : Except.ok (ε := Err) (disp1, regs1, x) = .ok r1 := h1
    exact ⟨(Except.ok.inj h2).symm, rfl⟩
  | cons bit rest ih =>
    intro disp1 disp2 regs1 regs2 x y r1 h1
    simp only [draw_row, Display.draw] at h1 ⊢
    by_cases hp1 : x + y * DISPLAY_WIDTH > DISPLAY_WIDTH * DISPLAY_HEIGHT
    · rw [if_pos hp1] at h1
      exact Except.noConfusion h1
    · rw [if_neg hp1] at h1 ⊢
      by_cases hp2 : x + y * DISPLAY_WIDTH < DISPLAY_WIDTH * DISPLAY_HEIGHT
      · rw [if_pos hp2] at h1 ⊢
        simp only [row_events]
        dsimp only at h1 ⊢
        by_cases hb : x + 1 ≥ DISPLAY_WIDTH - 1
        · rw [if_pos hb] at h1 ⊢
          simp only [if_pos hb]
          have h2 : Except.ok (ε := Err) _ = .ok r1 := h1
          exact ⟨(Except.ok.inj h2).symm, rfl⟩
        · rw [if_neg hb] at h1 ⊢
          simp only [if_neg hb]
          exact ih _ _ _ _ (x + 1) y r1 h1
      · rw [if_neg hp2] at h1
        exact Except.noConfusion h1

theorem apply_events_append (l1 l2 : List (Nat × Nat × Bool)) :
    ∀ (disp : Display) (regs : Nat → Nat),
      apply_events disp regs (l1 ++ l2)
        = apply_events (apply_events disp regs l1).1 (apply_events disp regs l1).2 l2 := by
  induction l1 with
  | nil => intro disp regs; rfl
  | cons e rest ih =>
    intro disp regs
    obtain ⟨x, y, bit⟩ := e
    simp only [List.cons_append, apply_events]
    exact ih _ _

/-- A successful sprite loop is the event fold, and its success carries
over to any other display and register file. -/
theorem draw_rows_sim (fuel : Nat) :
    ∀ (mem : Memory) (disp1 disp2 : Display) (regs1 regs2 : Nat → Nat) (sx i y : Nat)
      (r1 : Display × (Nat → Nat)),
      draw_rows mem disp1 regs1 sx i fuel y = .ok r1 →
      r1 = apply_events disp1 regs1 (rows_events mem sx i fuel y) ∧
      draw_rows mem disp2 regs2 sx i fuel y
        = .ok (apply_events disp2 regs2 (rows_events mem sx i fuel y)) := by
  induction fuel with
  | zero =>
    intro mem disp1 disp2 regs1 regs2 sx i y r1 h1
    have h2 : Except.ok (ε := Err) (disp1, regs1) = .ok r1 := h1
    exact ⟨(Except.ok.inj h2).symm, rfl⟩
  | succ fuel2 ih =>
    intro mem disp1 disp2 regs1 regs2 sx i y r1 h1
    simp only [draw_rows, rows_events] at h1 ⊢
    by_cases hm : i < RAM_SIZE
    · simp only [if_pos hm] at h1 ⊢
      cases hrow : draw_row disp1 regs1 sx y (get_bits (mem.inner i % 256)) with
      | error e =>
        rw [hrow] at h1
        exact Except.noConfusion h1
      | ok p =>
        rw [hrow] at h1
        obtain ⟨hchar, hrun2⟩ := draw_row_sim _ disp1 disp2 regs1 regs2 sx y p hrow
        subst hchar
        rw [hrun2]
        dsimp only at h1 ⊢
        by_cases hbc : ((row_events sx y (get_bits (mem.inner i % 256))).2 ≥ DISPLAY_WIDTH - 1
            && y + 1 ≥ DISPLAY_HEIGHT - 1) = true
        · simp only [if_pos hbc] at h1 ⊢
          have h2 : Except.ok (ε := Err) _ = .ok r1 := h1
          exact ⟨(Except.ok.inj h2).symm, trivial⟩
        · simp only [if_neg hbc] at h1 ⊢
          obtain ⟨hc2, hr2⟩ := ih mem
            (apply_events disp1 regs1 (row_events sx y (get_bits (mem.inner i % 256))).1).1
            (apply_events disp2 regs2 (row_events sx y (get_bits (mem.inner i % 256))).1).1
            (apply_events disp1 regs1 (row_events sx y (get_bits (mem.inner i % 256))).1).2
            (apply_events disp2 regs2 (row_events sx y (get_bits (mem.inner i % 256))).1).2
            sx (i + 1) (y + 1) r1 h1
          rw [apply_events_append, apply_events_append]
          exact ⟨hc2, hr2⟩
    · simp only [if_neg hm] at h1
      exact Except.noConfusion h1

/-- Linear framebuffer index of a pixel event. -/
def ev_pos (e : Nat × Nat × Bool) : Nat := e.1 + e.2.1 * DISPLAY_WIDTH

theorem row_events_mem_shape (bits : List Bool) :
    ∀ x y, ∀ e ∈ (row_events x y bits).1,
      e.2.1 = y ∧ x ≤ e.1 ∧ (e.1 = x ∨ e.1 < DISPLAY_WIDTH - 1) := by
  induction bits with
  | nil =>
    intro x y e he
    exact absurd he (List.not_mem_nil e)
  | cons bit rest ih =>
    intro x y e he
    simp only [row_events] at he
    by_cases hb : x + 1 ≥ DISPLAY_WIDTH - 1
    · rw [if_pos hb] at he
      rcases List.mem_cons.mp he with rfl | hn
      · exact ⟨rfl, Nat.le_refl x, Or.inl rfl⟩
      · exact absurd hn (List.not_mem_nil e)
    · rw [if_neg hb] at he
      rcases List.mem_cons.mp he with rfl | htail
      · exact ⟨rfl, Nat.le_refl x, Or.inl rfl⟩
      · obtain ⟨hy, hx, hbound⟩ := ih (x + 1) y e htail
        refine ⟨hy, by omega, Or.inr ?_⟩
        rcases hbound with heq | hlt
        · omega
        · exact hlt

theorem row_events_pairwise (bits : List Bool) :
    ∀ x y, List.Pairwise (fun a b => a.1 < b.1) (row_events x y bits).1 := by
  induction bits with
  | nil => intro x y; exact List.Pairwise.nil
  | cons bit rest ih =>
    intro x y
    simp only [row_events]
    by_cases hb : x + 1 ≥ DISPLAY_WIDTH - 1
    · rw [if_pos hb]
      exact List.pairwise_singleton _ _
    · rw [if_neg hb]
      refine List.Pairwise.cons ?_ (ih (x + 1) y)
      intro e he
      have hx := (row_events_mem_shape rest (x + 1) y e he).2.1
      omega

theorem rows_events_mem_y (fuel : Nat) :
    ∀ mem sx i y, ∀ e ∈ rows_events mem sx i fuel y, y ≤ e.2.1 := by
  induction fuel with
  | zero =>
    intro mem sx i y e he
    exact absurd he (List.not_mem_nil e)
  | succ fuel2 ih =>
    intro mem sx i y e he
    simp only [rows_events] at he
    by_cases hm : i < RAM_SIZE
    · simp only [if_pos hm] at he
      by_cases hbc : ((row_events sx y (get_bits (mem.inner i % 256))).2 ≥ DISPLAY_WIDTH - 1
          && y + 1 ≥ DISPLAY_HEIGHT - 1) = true
      · simp only [if_pos hbc] at he
        exact Nat.le_of_eq (row_events_mem_shape _ sx y e he).1.symm
      · simp only [if_neg hbc] at he
        rcases List.mem_append.mp he with hrow | hrest
        · exact Nat.le_of_eq (row_events_mem_shape _ sx y e hrow).1.symm
        · have := ih mem sx (i + 1) (y + 1) e hrest
          omega
    · simp only [if_neg hm] at he
      exact absurd he (List.not_mem_nil e)

theorem rows_events_pairwise (fuel : Nat) :
    ∀ mem sx i y, sx ≤ DISPLAY_WIDTH - 1 →
      List.Pairwise (fun a b => ev_pos a ≠ ev_pos b) (rows_events mem sx i fuel y) := by
  induction fuel with
  | zero => intro mem sx i y hsx; exact List.Pairwise.nil
  | succ fuel2 ih =>
    intro mem sx i y hsx
    simp only [rows_events]
    by_cases hm : i < RAM_SIZE
    · simp only [if_pos hm]
      have hrowpw : List.Pairwise (fun a b => ev_pos a ≠ ev_pos b)
          (row_events sx y (get_bits (mem.inner i % 256))).1 := by
        refine (row_events_pairwise _ sx y).imp_of_mem ?_
        intro a b ha hb hlt
        have hya := (row_events_mem_shape _ sx y a ha).1
        have hyb := (row_events_mem_shape _ sx y b hb).1
        unfold ev_pos
        rw [hya, hyb]
        omega
      by_cases hbc : ((row_events sx y (get_bits (mem.inner i % 256))).2 ≥ DISPLAY_WIDTH - 1
          && y + 1 ≥ DISPLAY_HEIGHT - 1) = true
      · simp only [if_pos hbc]
        exact hrowpw
      · simp only [if_neg hbc]
        rw [List.pairwise_append]
        refine ⟨hrowpw, ih mem sx (i + 1) (y + 1) hsx, ?_⟩
        intro a ha b hb
        have hya := (row_events_mem_shape _ sx y a ha).1
        have hxa := (row_events_mem_shape _ sx y a ha).2
        have hyb := rows_events_mem_y fuel2 mem sx (i + 1) (y + 1) b hb
        have hxa63 : a.1 ≤ DISPLAY_WIDTH - 1 := by
          rcases hxa.2 with heq | hlt
          · omega
          · omega
        unfold ev_pos
        rw [hya]
        have hW : DISPLAY_WIDTH = 64 := rfl
        have hH : DISPLAY_HEIGHT = 32 := rfl
        rw [hW] at hxa63 ⊢
        omega
    · simp only [if_neg hm]
      exact List.Pairwise.nil

theorem setReg_same (f : Nat → Nat) (r v : Nat) : setReg f r v r = v := by
  unfold setReg
  rw [if_pos rfl]

theorem setReg_other (f : Nat → Nat) (r v i : Nat) (h : i ≠ r) : setReg f r v i = f i := by
  unfold setReg
  rw [if_neg h]

theorem setReg_setReg (f : Nat → Nat) (r v w : Nat) :
    setReg (setReg f r v) r w = setReg f r w := by
  funext i
  unfold setReg
  by_cases h : i = r
  · rw [if_pos h, if_pos h]
  · rw [if_neg h, if_neg h, if_neg h]

theorem list_any_congr {α : Type} (l : List α) (f g : α → Bool)
    (h : ∀ a ∈ l, f a = g a) : l.any f = l.any g := by
  induction l with
  | nil => rfl
  | cons a rest ih =>
    simp only [List.any_cons]
    rw [h a (List.mem_cons_self a rest), ih (fun b hb => h b (List.mem_cons_of_mem a hb))]

theorem apply_events_inner_of_not_mem (evs : List (Nat × Nat × Bool)) :
    ∀ (disp : Display) (regs : Nat → Nat) (p : Nat), (∀ e ∈ evs, ev_pos e ≠ p) →
      (apply_events disp regs evs).1.inner p = disp.inner p := by
  induction evs with
  | nil => intro disp regs p _; rfl
  | cons e rest ih =>
    intro disp regs p hne
    obtain ⟨x, y, bit⟩ := e
    simp only [apply_events]
    rw [ih _ _ p (fun a ha => hne a (List.mem_cons_of_mem _ ha))]
    dsimp only
    rw [if_neg (fun hp => hne (x, y, bit) (List.mem_cons_self _ _) (hp.symm))]

theorem apply_events_inner_of_mem (evs : List (Nat × Nat × Bool)) :
    ∀ (disp : Display) (regs : Nat → Nat) (x y : Nat) (bit : Bool),
      List.Pairwise (fun a b => ev_pos a ≠ ev_pos b) evs →
      (x, y, bit) ∈ evs →
      (apply_events disp regs evs).1.inner (x + y * DISPLAY_WIDTH)
        = (disp.inner (x + y * DISPLAY_WIDTH) != bit) := by
  induction evs with
  | nil =>
    intro disp regs x y bit _ hmem
    exact absurd hmem (List.not_mem_nil _)
  | cons e rest ih =>
    intro disp regs x y bit hpw hmem
    obtain ⟨hhead, hpwrest⟩ := List.pairwise_cons.mp hpw
    rcases List.mem_cons.mp hmem with heq | htail
    · obtain rfl := heq.symm
      simp only [apply_events]
      rw [apply_events_inner_of_not_mem rest _ _ (x + y * DISPLAY_WIDTH)
        (fun a ha => (hhead a ha).symm)]
      dsimp only
      rw [if_pos rfl]
    · obtain ⟨ex, ey, ebit⟩ := e
      simp only [apply_events]
      rw [ih _ _ x y bit hpwrest htail]
      dsimp only
      rw [if_neg (fun h : x + y * DISPLAY_WIDTH = ex + ey * DISPLAY_WIDTH =>
        (hhead (x, y, bit) htail) h.symm)]

theorem apply_events_regs_other (evs : List (Nat × Nat × Bool)) :
    ∀ (disp : Display) (regs : Nat → Nat) (i : Nat), i ≠ FLAG_REGISTER →
      (apply_events disp regs evs).2 i = regs i := by
  induction evs with
  | nil => intro disp regs i _; rfl
  | cons e rest ih =>
    intro disp regs i hi
    obtain ⟨x, y, bit⟩ := e
    simp only [apply_events]
    rw [ih _ _ i hi]
    by_cases hc : (disp.inner (x + y * DISPLAY_WIDTH) == true
        && (disp.inner (x + y * DISPLAY_WIDTH) != bit) == false) = true
    · rw [if_pos hc]
      exact setReg_other _ _ _ _ hi
    · rw [if_neg hc]

theorem bool_turned_off (a b : Bool) :
    (a == true && (a != b) == false) = (a && b) := by
  cases a <;> cases b <;> rfl

theorem apply_events_regs (evs : List (Nat × Nat × Bool)) :
    ∀ (disp : Display) (regs : Nat → Nat),
      List.Pairwise (fun a b => ev_pos a ≠ ev_pos b) evs →
      (apply_events disp regs evs).2
        = if evs.any (fun e => disp.inner (ev_pos e) && e.2.2)
          then setReg regs FLAG_REGISTER 1 else regs := by
  induction evs with
  | nil =>
    intro disp regs _
    rw [if_neg (by simp)]
    rfl
  | cons e rest ih =>
    intro disp regs hpw
    obtain ⟨ex, ey, ebit⟩ := e
    obtain ⟨hhead, hpwrest⟩ := List.pairwise_cons.mp hpw
    simp only [apply_events]
    rw [ih _ _ hpwrest]
    dsimp only
    have hcongr : rest.any (fun e =>
          (fun p => if p = ex + ey * DISPLAY_WIDTH
            then disp.inner (ex + ey * DISPLAY_WIDTH) != ebit
            else disp.inner p) (ev_pos e) && e.2.2)
        = rest.any (fun e => disp.inner (ev_pos e) && e.2.2) := by
      refine list_any_congr rest _ _ ?_
      intro a ha
      dsimp only
      rw [if_neg (fun hp => (hhead a ha) hp.symm)]
    rw [hcongr, bool_turned_off, List.any_cons]
    dsimp only [ev_pos]
    cases hc1 : disp.inner (ex + ey * DISPLAY_WIDTH) && ebit <;>
      cases hc2 : rest.any (fun e => disp.inner (e.1 + e.2.1 * DISPLAY_WIDTH) && e.2.2) <;>
      simp [hc1, hc2, setReg_setReg]

theorem display_ext (a b : Display) (h : a.inner = b.inner) : a = b := by
  cases a
  cases b
  cases h
  rfl

theorem bool_xor_xor (a b : Bool) : ((a != b) != b) = a := by
  cases a <;> cases b <;> rfl

/-- Applying the same event list twice restores every pixel (the XOR
toggle is an involution), provided the positions are pairwise distinct. -/
theorem apply_events_twice_display (evs : List (Nat × Nat × Bool))
    (disp : Display) (regs1 regs2 : Nat → Nat)
    (hpw : List.Pairwise (fun a b => ev_pos a ≠ ev_pos b) evs) :
    (apply_events (apply_events disp regs1 evs).1 regs2 evs).1 = disp := by
  apply display_ext
  funext p
  by_cases hp : ∃ e ∈ evs, ev_pos e = p
  · obtain ⟨e, he, hpe⟩ := hp
    obtain ⟨x, y, bit⟩ := e
    have hpe2 : x + y * DISPLAY_WIDTH = p := hpe
    subst hpe2
    rw [apply_events_inner_of_mem evs _ regs2 x y bit hpw he]
    rw [apply_events_inner_of_mem evs disp regs1 x y bit hpw he]
    exact bool_xor_xor _ bit
  · push_neg at hp
    rw [apply_events_inner_of_not_mem evs _ regs2 p hp,
        apply_events_inner_of_not_mem evs disp regs1 p hp]

theorem band_true_left {a b : Bool} (h : (a && b) = true) : a = true := by
  cases a
  · rw [Bool.false_and] at h
    exact absurd h (by decide)
  · rfl

theorem band_true_right {a b : Bool} (h : (a && b) = true) : b = true := by
  cases b
  · rw [Bool.and_false] at h
    exact absurd h (by decide)
  · rfl

/-- C6: executing the same `Draw Vx Vy n` twice in a row from a state
whose coordinate registers are not the flag register (so the second draw
sees the same `Vx`, `Vy`, index register and sprite bytes) restores every
pixel to its value before the first draw, and after the second draw the
flag register is 1 iff some pixel went from on to off during that second
draw. -/
theorem C6_draw_twice (s s1 : Chip8) (xr yr n : Nat)
    (hx : xr ≠ FLAG_REGISTER) (hy : yr ≠ FLAG_REGISTER)
    (h1 : s.execute (.Draw xr yr n) = .ok s1) :
    ∃ s2, s1.execute (.Draw xr yr n) = .ok s2 ∧
      s2.display = s.display ∧
      (s2.V FLAG_REGISTER = 1 ↔
        ∃ p, s1.display.inner p = true ∧ s2.display.inner p = false) := by
  simp only [Chip8.execute, Chip8.draw_body, Chip8.V] at h1
  cases hdr : draw_rows s.memory s.display (setReg s.variable_registers FLAG_REGISTER 0)
      (s.variable_registers xr &&& (DISPLAY_WIDTH - 1)) s.index_register
      ((s.index_register + n) % 65536 - s.index_register)
      (s.variable_registers yr &&& (DISPLAY_HEIGHT - 1)) with
  | error e =>
    rw [hdr] at h1
    exact Except.noConfusion h1
  | ok pr =>
    rw [hdr] at h1
    obtain ⟨d1, regs1f⟩ := pr
    dsimp only at h1
    have hs1 : ({ s with display := d1, variable_registers := regs1f } : Chip8) = s1 :=
      Except.ok.inj h1
    subst hs1
    obtain ⟨hchar, hrun2⟩ := draw_rows_sim _ s.memory s.display d1
      (setReg s.variable_registers FLAG_REGISTER 0) (setReg regs1f FLAG_REGISTER 0)
      (s.variable_registers xr &&& (DISPLAY_WIDTH - 1)) s.index_register
      (s.variable_registers yr &&& (DISPLAY_HEIGHT - 1)) (d1, regs1f) hdr
    have hpw := rows_events_pairwise
      ((s.index_register + n) % 65536 - s.index_register) s.memory
      (s.variable_registers xr &&& (DISPLAY_WIDTH - 1)) s.index_register
      (s.variable_registers yr &&& (DISPLAY_HEIGHT - 1)) Nat.and_le_right
    set E := rows_events s.memory (s.variable_registers xr &&& (DISPLAY_WIDTH - 1))
      s.index_register ((s.index_register + n) % 65536 - s.index_register)
      (s.variable_registers yr &&& (DISPLAY_HEIGHT - 1)) with hEdef
    have hd1 : d1 = (apply_events s.display
        (setReg s.variable_registers FLAG_REGISTER 0) E).1 :=
      congrArg Prod.fst hchar
    have hr1 : regs1f = (apply_events s.display
        (setReg s.variable_registers FLAG_REGISTER 0) E).2 :=
      congrArg Prod.snd hchar
    have hvx : regs1f xr = s.variable_registers xr := by
      rw [hr1, apply_events_regs_other _ _ _ xr hx, setReg_other _ _ _ _ hx]
    have hvy : regs1f yr = s.variable_registers yr := by
      rw [hr1, apply_events_regs_other _ _ _ yr hy, setReg_other _ _ _ _ hy]
    have hD2 : (apply_events d1 (setReg regs1f FLAG_REGISTER 0) E).1 = s.display := by
      rw [hd1]
      exact apply_events_twice_display E s.display _ _ hpw
    have hexec : Chip8.execute { s with display := d1, variable_registers := regs1f }
        (.Draw xr yr n) = .ok { s with
          display := (apply_events d1 (setReg regs1f FLAG_REGISTER 0) E).1
          variable_registers := (apply_events d1 (setReg regs1f FLAG_REGISTER 0) E).2 } := by
      simp only [Chip8.execute, Chip8.draw_body, Chip8.V]
      rw [hvx, hvy]
      rw [hrun2]
    refine ⟨_, hexec, hD2, ?_⟩
    dsimp only [Chip8.V]
    have hR2 : (apply_events d1 (setReg regs1f FLAG_REGISTER 0) E).2
        = if E.any (fun e => d1.inner (ev_pos e) && e.2.2)
          then setReg (setReg regs1f FLAG_REGISTER 0) FLAG_REGISTER 1
          else setReg regs1f FLAG_REGISTER 0 :=
      apply_events_regs E d1 _ hpw
    have hiff : (E.any (fun e => d1.inner (ev_pos e) && e.2.2) = true) ↔
        ∃ p, d1.inner p = true ∧ s.display.inner p = false := by
      constructor
      · intro h
        obtain ⟨e, he, hfe⟩ := List.any_eq_true.mp h
        obtain ⟨x, y, bit⟩ := e
        have hdp : d1.inner (x + y * DISPLAY_WIDTH) = true := band_true_left hfe
        have hbit : bit = true := band_true_right hfe
        refine ⟨x + y * DISPLAY_WIDTH, hdp, ?_⟩
        have hval : d1.inner (x + y * DISPLAY_WIDTH)
            = (s.display.inner (x + y * DISPLAY_WIDTH) != bit) := by
          rw [hd1]
          exact apply_events_inner_of_mem E _ _ x y bit hpw he
        rw [hbit, hdp] at hval
        cases hsd : s.display.inner (x + y * DISPLAY_WIDTH)
        · rfl
        · rw [hsd] at hval
          exact absurd hval (by decide)
      · intro hex
        obtain ⟨p, hp1, hp0⟩ := hex
        have hne : ¬ (∀ e ∈ E, ev_pos e ≠ p) := by
          intro hall
          have heq := apply_events_inner_of_not_mem E s.display
            (setReg s.variable_registers FLAG_REGISTER 0) p hall
          rw [← hd1] at heq
          rw [hp1, hp0] at heq
          exact absurd heq (by decide)
        push_neg at hne
        obtain ⟨e, he, hpe⟩ := hne
        obtain ⟨x, y, bit⟩ := e
        have hpe2 : x + y * DISPLAY_WIDTH = p := hpe
        subst hpe2
        have hval : d1.inner (x + y * DISPLAY_WIDTH)
            = (s.display.inner (x + y * DISPLAY_WIDTH) != bit) := by
          rw [hd1]
          exact apply_events_inner_of_mem E _ _ x y bit hpw he
        rw [hp1, hp0] at hval
        have hbit : bit = true := by
          cases bit
          · exact absurd hval (by decide)
          · rfl
        refine List.any_eq_true.mpr ⟨(x, y, bit), he, ?_⟩
        show (d1.inner (x + y * DISPLAY_WIDTH) && bit) = true
        rw [hp1, hbit]
        rfl
    rw [hR2, hD2]
    cases hany : E.any (fun e => d1.inner (ev_pos e) && e.2.2) with
    | true =>
      rw [if_pos rfl, setReg_same]
      exact ⟨fun _ => hiff.mp hany, fun _ => rfl⟩
    | false =>
      rw [if_neg (by simp), setReg_same]
      constructor
      · intro h0
        exact absurd h0 (by decide)
      · intro hex
        have hcontra := hiff.mpr hex
        rw [hany] at hcontra
        exact absurd hcontra (by decide)

/-- Extract the state of a successful result (names the intermediate
state in the double-draw witness without spelling it out). -/
def okOr (d : Chip8) : Except Err Chip8 → Chip8
  | .ok s => s
  | .error _ => d

/-- Fixture for the double-draw witness: sprite byte 0xA5 at 0x300,
origin (0, 0). -/
def cexDouble : Chip8 :=
  { st0 with memory := ⟨writeBytes (fun _ => 0) 0x300 [0xA5]⟩ }

/-- C6 witness: drawing the one-row sprite 0xA5 twice at origin (0, 0)
restores the display, and the flag reports the pixels toggled off. -/
theorem C6_draw_twice_witness :
    ∃ s2, (okOr st0 (cexDouble.execute (.Draw 0 1 1))).execute (.Draw 0 1 1) = .ok s2 ∧
      s2.display = cexDouble.display ∧
      (s2.V FLAG_REGISTER = 1 ↔
        ∃ p, (okOr st0 (cexDouble.execute (.Draw 0 1 1))).display.inner p = true ∧
          s2.display.inner p = false) :=
  C6_draw_twice cexDouble (okOr st0 (cexDouble.execute (.Draw 0 1 1))) 0 1 1
    (by decide) (by decide) rfl

/-- C10: recorded key input never influences execution: frame advance
from states that differ only in the input-event submissions made
beforehand produces identical results — the same success or failure, and
identical memory, registers, program counter, stack and framebuffer
(everything except the untouched input buffer itself). -/
theorem C10_input_no_influence (s : Chip8) (e1 e2 : List (Char × Bool)) :
    (Chip8.update (submit_all s e1)).map Chip8.strip
      = (Chip8.update (submit_all s e2)).map Chip8.strip := by
  have key : ∀ i : List (Char × Bool),
      (Chip8.update { s with input := i }).map Chip8.strip
        = (update_ticks s.ticks s).map Chip8.strip := by
    intro i
    show (update_ticks s.ticks { s with input := i }).map Chip8.strip = _
    rw [update_ticks_input, except_map_map]
    rfl
  rw [submit_all_eq s e1, submit_all_eq s e2, key, key]

end Chip8Spec
